import Mathlib

set_option maxHeartbeats 1000000

/-!
Shallow embedding of the fyg manifest model (src/config.rs, src/toml.rs,
src/lib.rs).  The serde derives on the Rust structs determine a total
encoder and a fallible decoder between the configuration types and the
TOML data model; we embed both at the level of TOML values (the third
party `toml` crate maps values to concrete text).  The scaffolder
(`Fyg::new` / `Fyg::init`) is embedded over an explicit filesystem state
with fallible write/mkdir operations.
-/

/-- The TOML data model, restricted to the value kinds the fyg schema uses
(strings, booleans, integers, arrays, tables).  Tables are association
lists in source order. -/
inductive Toml where
  | str (s : String)
  | boolean (b : Bool)
  | int (n : Int)
  | arr (elems : List Toml)
  | table (entries : List (String × Toml))

/-- First-match key lookup in a TOML table, as the deserializer sees it. -/
def lookupKey (kvs : List (String × Toml)) (k : String) : Option Toml :=
  match kvs with
  | [] => none
  | (k', v) :: rest => if k' = k then some v else lookupKey rest k

/-- Decoding errors produced by the serde-derived deserializers: a missing
required field, a value of the wrong kind, an unknown enum variant, or an
untagged enum none of whose variants matched.  Each carries the key path
of the offending value. -/
inductive FormatError where
  | missingField (path : List String) (field : String)
  | typeMismatch (path : List String) (expected : String)
  | unknownVariant (path : List String) (found : String)
  | untaggedMismatch (path : List String) (enumName : String)
  | duplicateField (path : List String) (field : String)
deriving DecidableEq, Repr

/-- `FygBinaryType` from src/lib.rs, a `serde(rename_all = "camelCase")`
unit enum. -/
inductive FygBinaryType where
  | Executable
  | Test
  | SharedLib
  | StaticLib
  | Framework
deriving DecidableEq, Repr

/-- The camelCase external name serde gives each variant of
`FygBinaryType` (`rename_all = "camelCase"`). -/
def FygBinaryType.externalName : FygBinaryType → String
  | .Executable => "executable"
  | .Test => "test"
  | .SharedLib => "sharedLib"
  | .StaticLib => "staticLib"
  | .Framework => "framework"

/-- The `Display` implementation for `FygBinaryType` in src/lib.rs. -/
def FygBinaryType.display : FygBinaryType → String
  | .Executable => "executable"
  | .Test => "test"
  | .SharedLib => "sharedLib"
  | .StaticLib => "staticLib"
  | .Framework => "framework"

/-- `ProjectConfig` from src/config.rs: `name`, `group`, `version`
required; `authors`, `description` optional with serde defaults. -/
structure ProjectConfig where
  name : String
  group : String
  version : String
  authors : Option (List String)
  description : Option String
deriving DecidableEq, Repr

/-- `BuildConfig` from src/config.rs. -/
structure BuildConfig where
  multiplatform : Option Bool
  languages : Option (List String)
deriving DecidableEq, Repr

/-- `JvmTarget` from src/config.rs: `enabled` required, `target`
optional. -/
structure JvmTarget where
  enabled : Bool
  target : Option String
deriving DecidableEq, Repr

/-- `TargetEnabled` from src/config.rs. -/
structure TargetEnabled where
  enabled : Bool
deriving DecidableEq, Repr

/-- `NativeBinaryConfig` from src/config.rs: the `type` key is required
and the `base-name` key optional (serde renames). -/
structure NativeBinaryConfig where
  binary_type : FygBinaryType
  base_name : Option String
deriving DecidableEq, Repr

/-- `NativeConfig` from src/config.rs. -/
structure NativeConfig where
  binary : Option NativeBinaryConfig
deriving DecidableEq, Repr

/-- `TargetsConfig` from src/config.rs: eight independently optional
slots; the hyphenated external keys are applied by serde renames. -/
structure TargetsConfig where
  jvm : Option JvmTarget
  ios_arm64 : Option TargetEnabled
  ios_x64 : Option TargetEnabled
  ios_simulator_arm64 : Option TargetEnabled
  linux_x64 : Option TargetEnabled
  macos_arm64 : Option TargetEnabled
  windows_x64 : Option TargetEnabled
  native : Option NativeConfig
deriving DecidableEq, Repr

/-- `DependencyConfig` from src/config.rs: all three fields optional. -/
structure DependencyConfig where
  path : Option String
  workspace : Option Bool
  version : Option String
deriving DecidableEq, Repr

/-- `DependencyValue` from src/config.rs: a `serde(untagged)` enum, a
plain version string or a structured object. -/
inductive DependencyValue where
  | Version (v : String)
  | Complex (c : DependencyConfig)
deriving DecidableEq, Repr

/-- `DependenciesConfig` from src/config.rs.  The Rust `HashMap` scopes
are embedded as association lists (key-wise equal maps). -/
structure DependenciesConfig where
  common : Option (List (String × DependencyValue))
  jvm : Option (List (String × DependencyValue))
  test : Option (List (String × DependencyValue))
deriving DecidableEq, Repr

/-- `TestConfig` from src/config.rs. -/
structure TestConfig where
  framework : Option String
deriving DecidableEq, Repr

/-- `CustomRepository` from src/config.rs: `type` and `url` required. -/
structure CustomRepository where
  repo_type : String
  url : String
deriving DecidableEq, Repr

/-- `RepositoryConfig` from src/config.rs: a `serde(untagged)` enum, a
boolean flag or a custom repository object. -/
inductive RepositoryConfig where
  | Enabled (b : Bool)
  | Custom (c : CustomRepository)
deriving DecidableEq, Repr

/-- `FygToml` from src/toml.rs: the manifest document root. -/
structure FygToml where
  project : ProjectConfig
  build : Option BuildConfig
  targets : Option TargetsConfig
  dependencies : Option DependenciesConfig
  test : Option TestConfig
  repositories : Option (List (String × RepositoryConfig))
deriving DecidableEq, Repr

/-- `FygToml::new` from src/toml.rs: required fields supplied, fixed
default version, every optional section absent. -/
def FygToml.new (name : String) (group : String) : FygToml :=
  { project :=
      { name := name
        group := group
        version := "1.0.0-SNAPSHOT"
        authors := none
        description := none }
    build := none
    targets := none
    dependencies := none
    test := none
    repositories := none }

/-- Propagation of `Except.bind` over a success, for unfolding decoders. -/
theorem exceptOkBind {α β ε : Type} (a : α) (f : α → Except ε β) :
    (Except.ok a : Except ε α) >>= f = f a := rfl

/-- Propagation of `Except.bind` over an error, for unfolding decoders. -/
theorem exceptErrBind {α β ε : Type} (e : ε) (f : α → Except ε β) :
    (Except.error e : Except ε α) >>= f = Except.error e := rfl

/-- Requires a TOML value to be a table (how serde deserializes a
struct). -/
def asTable (path : List String) : Toml → Except FormatError (List (String × Toml))
  | .table kvs => .ok kvs
  | _ => .error (.typeMismatch path "table")

/-- A required struct field: absence is serde's missing-field error. -/
def reqField (path : List String) (kvs : List (String × Toml)) (field : String) :
    Except FormatError Toml :=
  match lookupKey kvs field with
  | some v => .ok v
  | none => .error (.missingField path field)

/-- Decodes a TOML string value. -/
def decodeStr (path : List String) : Toml → Except FormatError String
  | .str s => .ok s
  | _ => .error (.typeMismatch path "string")

/-- Decodes a TOML boolean value. -/
def decodeBool (path : List String) : Toml → Except FormatError Bool
  | .boolean b => .ok b
  | _ => .error (.typeMismatch path "boolean")

/-- Decodes a list of TOML values that must all be strings. -/
def decodeStrElems (path : List String) : List Toml → Except FormatError (List String)
  | [] => .ok []
  | .str s :: rest => do
      let r ← decodeStrElems path rest
      .ok (s :: r)
  | _ :: _ => .error (.typeMismatch path "string")

/-- Decodes a TOML array of strings (`Vec<String>`). -/
def decodeStrArr (path : List String) : Toml → Except FormatError (List String)
  | .arr es => decodeStrElems path es
  | _ => .error (.typeMismatch path "array")

/-- An optional struct field with `#[serde(default)]`: an absent key
decodes to `none`, a present key decodes the value. -/
def decodeOpt {α : Type} (f : Toml → Except FormatError α) :
    Option Toml → Except FormatError (Option α)
  | none => .ok none
  | some t => do
      let v ← f t
      .ok (some v)

/-- Decodes the entries of a TOML table pointwise (a `HashMap<String, V>`
field). -/
def decodeEntries {α : Type} (f : List String → Toml → Except FormatError α)
    (path : List String) : List (String × Toml) → Except FormatError (List (String × α))
  | [] => .ok []
  | (k, v) :: rest => do
      let a ← f (path ++ [k]) v
      let r ← decodeEntries f path rest
      .ok ((k, a) :: r)

/-- Decodes a TOML table into a key-to-value association (`HashMap`). -/
def decodeStringMap {α : Type} (f : List String → Toml → Except FormatError α)
    (path : List String) : Toml → Except FormatError (List (String × α))
  | .table kvs => decodeEntries f path kvs
  | _ => .error (.typeMismatch path "table")

/-- Deserialization of `FygBinaryType`: an exact, case-sensitive match of
one of the five camelCase variant names. -/
def decodeFygBinaryType (path : List String) : Toml → Except FormatError FygBinaryType
  | .str "executable" => .ok .Executable
  | .str "test" => .ok .Test
  | .str "sharedLib" => .ok .SharedLib
  | .str "staticLib" => .ok .StaticLib
  | .str "framework" => .ok .Framework
  | .str s => .error (.unknownVariant path s)
  | _ => .error (.typeMismatch path "string")

/-- The field accumulator the serde derive builds while visiting the
entries of a `ProjectConfig` table. -/
structure ProjectAcc where
  name : Option String
  group : Option String
  version : Option String
  authors : Option (List String)
  description : Option String
deriving DecidableEq, Repr

/-- The all-unset accumulator the serde visitor starts from. -/
def projectAccInit : ProjectAcc :=
  { name := none, group := none, version := none, authors := none,
    description := none }

/-- The serde visitor loop for `ProjectConfig`: entries are processed in
input order, each known field's value is deserialized when it is
encountered (a type error fires immediately), a repeated known field is
a duplicate-field error, and unknown keys are skipped. -/
def decodeProjectEntries (path : List String) (acc : ProjectAcc) :
    List (String × Toml) → Except FormatError ProjectAcc
  | [] => .ok acc
  | (k, v) :: rest =>
    if k = "name" then
      match acc.name with
      | some _ => .error (.duplicateField path "name")
      | none => do
          let s ← decodeStr (path ++ ["name"]) v
          decodeProjectEntries path { acc with name := some s } rest
    else if k = "group" then
      match acc.group with
      | some _ => .error (.duplicateField path "group")
      | none => do
          let s ← decodeStr (path ++ ["group"]) v
          decodeProjectEntries path { acc with group := some s } rest
    else if k = "version" then
      match acc.version with
      | some _ => .error (.duplicateField path "version")
      | none => do
          let s ← decodeStr (path ++ ["version"]) v
          decodeProjectEntries path { acc with version := some s } rest
    else if k = "authors" then
      match acc.authors with
      | some _ => .error (.duplicateField path "authors")
      | none => do
          let l ← decodeStrArr (path ++ ["authors"]) v
          decodeProjectEntries path { acc with authors := some l } rest
    else if k = "description" then
      match acc.description with
      | some _ => .error (.duplicateField path "description")
      | none => do
          let s ← decodeStr (path ++ ["description"]) v
          decodeProjectEntries path { acc with description := some s } rest
    else
      decodeProjectEntries path acc rest

/-- Deserialization of `ProjectConfig`: the visitor traverses the table
in input order (type errors on present values fire during the
traversal); only afterwards are the missing required fields checked, in
declaration order (`ok_or(missing_field)` in the derive). -/
def decodeProjectConfig (path : List String) (t : Toml) :
    Except FormatError ProjectConfig := do
  let kvs ← asTable path t
  let acc ← decodeProjectEntries path projectAccInit kvs
  match acc.name with
  | none => .error (.missingField path "name")
  | some name =>
    match acc.group with
    | none => .error (.missingField path "group")
    | some group =>
      match acc.version with
      | none => .error (.missingField path "version")
      | some version =>
        .ok { name, group, version, authors := acc.authors,
              description := acc.description }

/-- Deserialization of `BuildConfig`: both fields optional. -/
def decodeBuildConfig (path : List String) (t : Toml) :
    Except FormatError BuildConfig := do
  let kvs ← asTable path t
  let multiplatform ← decodeOpt (decodeBool (path ++ ["multiplatform"])) (lookupKey kvs "multiplatform")
  let languages ← decodeOpt (decodeStrArr (path ++ ["languages"])) (lookupKey kvs "languages")
  .ok { multiplatform, languages }

/-- Deserialization of `JvmTarget`: `enabled` required boolean, `target`
optional string. -/
def decodeJvmTarget (path : List String) (t : Toml) :
    Except FormatError JvmTarget := do
  let kvs ← asTable path t
  let enabledV ← reqField path kvs "enabled"
  let enabled ← decodeBool (path ++ ["enabled"]) enabledV
  let target ← decodeOpt (decodeStr (path ++ ["target"])) (lookupKey kvs "target")
  .ok { enabled, target }

/-- Deserialization of `TargetEnabled`: `enabled` required boolean. -/
def decodeTargetEnabled (path : List String) (t : Toml) :
    Except FormatError TargetEnabled := do
  let kvs ← asTable path t
  let enabledV ← reqField path kvs "enabled"
  let enabled ← decodeBool (path ++ ["enabled"]) enabledV
  .ok { enabled }

/-- Deserialization of `NativeBinaryConfig`: the `type` key is required,
the renamed `base-name` key optional. -/
def decodeNativeBinaryConfig (path : List String) (t : Toml) :
    Except FormatError NativeBinaryConfig := do
  let kvs ← asTable path t
  let typeV ← reqField path kvs "type"
  let binary_type ← decodeFygBinaryType (path ++ ["type"]) typeV
  let base_name ← decodeOpt (decodeStr (path ++ ["base-name"])) (lookupKey kvs "base-name")
  .ok { binary_type, base_name }

/-- Deserialization of `NativeConfig`: `binary` optional. -/
def decodeNativeConfig (path : List String) (t : Toml) :
    Except FormatError NativeConfig := do
  let kvs ← asTable path t
  let binary ← decodeOpt (decodeNativeBinaryConfig (path ++ ["binary"])) (lookupKey kvs "binary")
  .ok { binary }

/-- Deserialization of `TargetsConfig`: the eight renamed slots, each
optional; keys outside the eight are ignored (serde default, no
`deny_unknown_fields`). -/
def decodeTargetsConfig (path : List String) (t : Toml) :
    Except FormatError TargetsConfig := do
  let kvs ← asTable path t
  let jvm ← decodeOpt (decodeJvmTarget (path ++ ["jvm"])) (lookupKey kvs "jvm")
  let ios_arm64 ← decodeOpt (decodeTargetEnabled (path ++ ["ios-arm64"])) (lookupKey kvs "ios-arm64")
  let ios_x64 ← decodeOpt (decodeTargetEnabled (path ++ ["ios-x64"])) (lookupKey kvs "ios-x64")
  let ios_simulator_arm64 ← decodeOpt (decodeTargetEnabled (path ++ ["ios-simulator-arm64"])) (lookupKey kvs "ios-simulator-arm64")
  let linux_x64 ← decodeOpt (decodeTargetEnabled (path ++ ["linux-x64"])) (lookupKey kvs "linux-x64")
  let macos_arm64 ← decodeOpt (decodeTargetEnabled (path ++ ["macos-arm64"])) (lookupKey kvs "macos-arm64")
  let windows_x64 ← decodeOpt (decodeTargetEnabled (path ++ ["windows-x64"])) (lookupKey kvs "windows-x64")
  let native ← decodeOpt (decodeNativeConfig (path ++ ["native"])) (lookupKey kvs "native")
  .ok { jvm, ios_arm64, ios_x64, ios_simulator_arm64, linux_x64, macos_arm64, windows_x64, native }

/-- Deserialization of `DependencyConfig`: all fields optional. -/
def decodeDependencyConfig (path : List String) (t : Toml) :
    Except FormatError DependencyConfig := do
  let kvs ← asTable path t
  let depPath ← decodeOpt (decodeStr (path ++ ["path"])) (lookupKey kvs "path")
  let workspace ← decodeOpt (decodeBool (path ++ ["workspace"])) (lookupKey kvs "workspace")
  let version ← decodeOpt (decodeStr (path ++ ["version"])) (lookupKey kvs "version")
  .ok { path := depPath, workspace, version }

/-- Deserialization of the untagged `DependencyValue`: the `Version`
variant succeeds exactly on a string; otherwise the `Complex` variant is
attempted; if neither matches, serde reports the untagged mismatch. -/
def decodeDependencyValue (path : List String) (t : Toml) :
    Except FormatError DependencyValue :=
  match t with
  | .str s => .ok (.Version s)
  | _ =>
    match decodeDependencyConfig path t with
    | .ok c => .ok (.Complex c)
    | .error _ => .error (.untaggedMismatch path "DependencyValue")

/-- Deserialization of `DependenciesConfig`: the three scopes, each an
optional table of dependency values. -/
def decodeDependenciesConfig (path : List String) (t : Toml) :
    Except FormatError DependenciesConfig := do
  let kvs ← asTable path t
  let common ← decodeOpt (decodeStringMap decodeDependencyValue (path ++ ["common"])) (lookupKey kvs "common")
  let jvm ← decodeOpt (decodeStringMap decodeDependencyValue (path ++ ["jvm"])) (lookupKey kvs "jvm")
  let testScope ← decodeOpt (decodeStringMap decodeDependencyValue (path ++ ["test"])) (lookupKey kvs "test")
  .ok { common, jvm, test := testScope }

/-- Deserialization of `TestConfig`: `framework` optional. -/
def decodeTestConfig (path : List String) (t : Toml) :
    Except FormatError TestConfig := do
  let kvs ← asTable path t
  let framework ← decodeOpt (decodeStr (path ++ ["framework"])) (lookupKey kvs "framework")
  .ok { framework }

/-- Deserialization of `CustomRepository`: `type` and `url` required
strings. -/
def decodeCustomRepository (path : List String) (t : Toml) :
    Except FormatError CustomRepository := do
  let kvs ← asTable path t
  let typeV ← reqField path kvs "type"
  let repo_type ← decodeStr (path ++ ["type"]) typeV
  let urlV ← reqField path kvs "url"
  let url ← decodeStr (path ++ ["url"]) urlV
  .ok { repo_type, url }

/-- Deserialization of the untagged `RepositoryConfig`: the `Enabled`
variant succeeds exactly on a boolean; otherwise the `Custom` variant is
attempted; if neither matches, serde reports the untagged mismatch. -/
def decodeRepositoryConfig (path : List String) (t : Toml) :
    Except FormatError RepositoryConfig :=
  match t with
  | .boolean b => .ok (.Enabled b)
  | _ =>
    match decodeCustomRepository path t with
    | .ok c => .ok (.Custom c)
    | .error _ => .error (.untaggedMismatch path "RepositoryConfig")

/-- The section accumulator the serde derive builds while visiting the
top-level entries of a manifest. -/
structure FygAcc where
  project : Option ProjectConfig
  build : Option BuildConfig
  targets : Option TargetsConfig
  dependencies : Option DependenciesConfig
  test : Option TestConfig
  repositories : Option (List (String × RepositoryConfig))
deriving DecidableEq, Repr

/-- The all-unset accumulator the top-level serde visitor starts from. -/
def fygAccInit : FygAcc :=
  { project := none, build := none, targets := none, dependencies := none,
    test := none, repositories := none }

/-- The serde visitor loop for the manifest root: top-level entries are
processed in input order, each known section is deserialized when its
key is encountered (its errors fire at that point), a repeated section
key is a duplicate-field error, and unknown keys are skipped. -/
def decodeFygEntries (acc : FygAcc) :
    List (String × Toml) → Except FormatError FygAcc
  | [] => .ok acc
  | (k, v) :: rest =>
    if k = "project" then
      match acc.project with
      | some _ => .error (.duplicateField [] "project")
      | none => do
          let p ← decodeProjectConfig ["project"] v
          decodeFygEntries { acc with project := some p } rest
    else if k = "build" then
      match acc.build with
      | some _ => .error (.duplicateField [] "build")
      | none => do
          let b ← decodeBuildConfig ["build"] v
          decodeFygEntries { acc with build := some b } rest
    else if k = "targets" then
      match acc.targets with
      | some _ => .error (.duplicateField [] "targets")
      | none => do
          let tg ← decodeTargetsConfig ["targets"] v
          decodeFygEntries { acc with targets := some tg } rest
    else if k = "dependencies" then
      match acc.dependencies with
      | some _ => .error (.duplicateField [] "dependencies")
      | none => do
          let dp ← decodeDependenciesConfig ["dependencies"] v
          decodeFygEntries { acc with dependencies := some dp } rest
    else if k = "test" then
      match acc.test with
      | some _ => .error (.duplicateField [] "test")
      | none => do
          let ts ← decodeTestConfig ["test"] v
          decodeFygEntries { acc with test := some ts } rest
    else if k = "repositories" then
      match acc.repositories with
      | some _ => .error (.duplicateField [] "repositories")
      | none => do
          let rp ← decodeStringMap decodeRepositoryConfig ["repositories"] v
          decodeFygEntries { acc with repositories := some rp } rest
    else
      decodeFygEntries acc rest

/-- `FygToml::from_str` after the text layer: deserialization of the
manifest root.  The visitor traverses the top-level table in input
order (a malformed section errors at its position in the input); only
after the traversal is the required `project` section checked. -/
def FygToml.decode (t : Toml) : Except FormatError FygToml := do
  let kvs ← asTable [] t
  let acc ← decodeFygEntries fygAccInit kvs
  match acc.project with
  | none => .error (.missingField [] "project")
  | some project =>
      .ok { project, build := acc.build, targets := acc.targets,
            dependencies := acc.dependencies, test := acc.test,
            repositories := acc.repositories }

/-- Serialization of an optional struct field: a `None` field is skipped
(the `toml` serializer omits the key), a `Some` field is emitted. -/
def optCons (k : String) (o : Option Toml) (rest : List (String × Toml)) :
    List (String × Toml) :=
  match o with
  | none => rest
  | some v => (k, v) :: rest

/-- Serialization of `FygBinaryType`: its camelCase variant name. -/
def encodeFygBinaryType (b : FygBinaryType) : Toml :=
  .str b.externalName

/-- Serialization of `ProjectConfig`, fields in declaration order. -/
def encodeProjectConfig (p : ProjectConfig) : Toml :=
  .table (("name", .str p.name) :: ("group", .str p.group) :: ("version", .str p.version) ::
    optCons "authors" (p.authors.map (fun l => .arr (l.map .str)))
      (optCons "description" (p.description.map .str) []))

/-- Serialization of `BuildConfig`. -/
def encodeBuildConfig (b : BuildConfig) : Toml :=
  .table (optCons "multiplatform" (b.multiplatform.map .boolean)
    (optCons "languages" (b.languages.map (fun l => .arr (l.map .str))) []))

/-- Serialization of `JvmTarget`. -/
def encodeJvmTarget (j : JvmTarget) : Toml :=
  .table (("enabled", .boolean j.enabled) :: optCons "target" (j.target.map .str) [])

/-- Serialization of `TargetEnabled`. -/
def encodeTargetEnabled (e : TargetEnabled) : Toml :=
  .table [("enabled", .boolean e.enabled)]

/-- Serialization of `NativeBinaryConfig`, with the serde renames
applied. -/
def encodeNativeBinaryConfig (n : NativeBinaryConfig) : Toml :=
  .table (("type", encodeFygBinaryType n.binary_type) ::
    optCons "base-name" (n.base_name.map .str) [])

/-- Serialization of `NativeConfig`. -/
def encodeNativeConfig (n : NativeConfig) : Toml :=
  .table (optCons "binary" (n.binary.map encodeNativeBinaryConfig) [])

/-- Serialization of `TargetsConfig`, slots in declaration order with the
hyphenated external keys. -/
def encodeTargetsConfig (t : TargetsConfig) : Toml :=
  .table (optCons "jvm" (t.jvm.map encodeJvmTarget)
    (optCons "ios-arm64" (t.ios_arm64.map encodeTargetEnabled)
      (optCons "ios-x64" (t.ios_x64.map encodeTargetEnabled)
        (optCons "ios-simulator-arm64" (t.ios_simulator_arm64.map encodeTargetEnabled)
          (optCons "linux-x64" (t.linux_x64.map encodeTargetEnabled)
            (optCons "macos-arm64" (t.macos_arm64.map encodeTargetEnabled)
              (optCons "windows-x64" (t.windows_x64.map encodeTargetEnabled)
                (optCons "native" (t.native.map encodeNativeConfig) []))))))))

/-- Serialization of `DependencyConfig`. -/
def encodeDependencyConfig (d : DependencyConfig) : Toml :=
  .table (optCons "path" (d.path.map .str)
    (optCons "workspace" (d.workspace.map .boolean)
      (optCons "version" (d.version.map .str) [])))

/-- Serialization of the untagged `DependencyValue`: the variant's
content is emitted directly. -/
def encodeDependencyValue : DependencyValue → Toml
  | .Version v => .str v
  | .Complex c => encodeDependencyConfig c

/-- Serialization of a string-keyed map as a TOML table. -/
def encodeStringMap {α : Type} (f : α → Toml) (m : List (String × α)) : Toml :=
  .table (m.map (fun kv => (kv.1, f kv.2)))

/-- Serialization of `DependenciesConfig`. -/
def encodeDependenciesConfig (d : DependenciesConfig) : Toml :=
  .table (optCons "common" (d.common.map (encodeStringMap encodeDependencyValue))
    (optCons "jvm" (d.jvm.map (encodeStringMap encodeDependencyValue))
      (optCons "test" (d.test.map (encodeStringMap encodeDependencyValue)) [])))

/-- Serialization of `TestConfig`. -/
def encodeTestConfig (t : TestConfig) : Toml :=
  .table (optCons "framework" (t.framework.map .str) [])

/-- Serialization of `CustomRepository`, with the `type` rename applied. -/
def encodeCustomRepository (c : CustomRepository) : Toml :=
  .table [("type", .str c.repo_type), ("url", .str c.url)]

/-- Serialization of the untagged `RepositoryConfig`. -/
def encodeRepositoryConfig : RepositoryConfig → Toml
  | .Enabled b => .boolean b
  | .Custom c => encodeCustomRepository c

/-- `FygToml::to_toml_string` after the text layer: serialization of the
manifest root, sections in declaration order, absent sections omitted. -/
def FygToml.encode (t : FygToml) : Toml :=
  .table (("project", encodeProjectConfig t.project) ::
    optCons "build" (t.build.map encodeBuildConfig)
      (optCons "targets" (t.targets.map encodeTargetsConfig)
        (optCons "dependencies" (t.dependencies.map encodeDependenciesConfig)
          (optCons "test" (t.test.map encodeTestConfig)
            (optCons "repositories" (t.repositories.map (encodeStringMap encodeRepositoryConfig)) [])))))

/-- Lookup in the empty table. -/
theorem lookupKey_nil (k : String) : lookupKey [] k = none := rfl

/-- Lookup finds the head entry when the key matches. -/
theorem lookupKey_cons_self (k : String) (v : Toml) (rest : List (String × Toml)) :
    lookupKey ((k, v) :: rest) k = some v := by
  simp [lookupKey]

/-- Lookup skips the head entry when the key differs. -/
theorem lookupKey_cons_ne (k k' : String) (v : Toml) (rest : List (String × Toml))
    (h : ¬ (k' = k)) : lookupKey ((k', v) :: rest) k = lookupKey rest k := by
  simp [lookupKey, h]

/-- Lookup at the key of an optional entry yields exactly that option,
provided the rest of the table does not use the key. -/
theorem lookupKey_optCons_self (k : String) (o : Option Toml)
    (rest : List (String × Toml)) (h : lookupKey rest k = none) :
    lookupKey (optCons k o rest) k = o := by
  cases o <;> simp [optCons, lookupKey, h]

/-- Lookup skips an optional entry with a different key. -/
theorem lookupKey_optCons_ne (k k' : String) (o : Option Toml)
    (rest : List (String × Toml)) (h : ¬ (k' = k)) :
    lookupKey (optCons k' o rest) k = lookupKey rest k := by
  cases o <;> simp [optCons, lookupKey, h]

/-- An optional field round-trips through `decodeOpt` as soon as the
element codec round-trips. -/
theorem decodeOpt_comp {α : Type} (dec : Toml → Except FormatError α) (enc : α → Toml)
    (h : ∀ a, dec (enc a) = .ok a) (o : Option α) :
    decodeOpt dec (o.map enc) = .ok o := by
  cases o with
  | none => rfl
  | some a => simp [decodeOpt, h, exceptOkBind]

/-- Optional string fields round-trip. -/
theorem decodeOpt_str (path : List String) (o : Option String) :
    decodeOpt (decodeStr path) (o.map .str) = .ok o :=
  decodeOpt_comp (decodeStr path) Toml.str (fun _ => rfl) o

/-- Optional boolean fields round-trip. -/
theorem decodeOpt_bool (path : List String) (o : Option Bool) :
    decodeOpt (decodeBool path) (o.map .boolean) = .ok o :=
  decodeOpt_comp (decodeBool path) Toml.boolean (fun _ => rfl) o

/-- String arrays round-trip. -/
theorem decodeStrArr_map (path : List String) (l : List String) :
    decodeStrArr path (.arr (l.map .str)) = .ok l := by
  induction l with
  | nil => rfl
  | cons s rest ih =>
    simp [decodeStrArr, decodeStrElems] at ih ⊢
    simp [ih, exceptOkBind]

/-- Optional string-array fields round-trip. -/
theorem decodeOpt_strArr (path : List String) (o : Option (List String)) :
    decodeOpt (decodeStrArr path) (o.map (fun l => .arr (l.map .str))) = .ok o :=
  decodeOpt_comp _ _ (fun l => decodeStrArr_map path l) o

/-- The binary-kind codec round-trips. -/
theorem decodeFygBinaryType_encode (path : List String) (b : FygBinaryType) :
    decodeFygBinaryType path (encodeFygBinaryType b) = .ok b := by
  cases b <;> rfl

/-- `ProjectConfig` round-trips. -/
theorem decodeProjectConfig_encode (path : List String) (p : ProjectConfig) :
    decodeProjectConfig path (encodeProjectConfig p) = .ok p := by
  obtain ⟨n, g, v, a, d⟩ := p
  cases a <;> cases d <;>
    simp [decodeProjectConfig, encodeProjectConfig, asTable, decodeProjectEntries,
      projectAccInit, optCons, decodeStr, decodeStrArr_map, exceptOkBind]

/-- `BuildConfig` round-trips. -/
theorem decodeBuildConfig_encode (path : List String) (b : BuildConfig) :
    decodeBuildConfig path (encodeBuildConfig b) = .ok b := by
  obtain ⟨m, l⟩ := b
  simp [decodeBuildConfig, encodeBuildConfig, asTable, exceptOkBind,
    lookupKey_optCons_self, lookupKey_optCons_ne, lookupKey_nil,
    decodeOpt_bool, decodeOpt_strArr]

/-- `JvmTarget` round-trips. -/
theorem decodeJvmTarget_encode (path : List String) (j : JvmTarget) :
    decodeJvmTarget path (encodeJvmTarget j) = .ok j := by
  obtain ⟨e, t⟩ := j
  simp [decodeJvmTarget, encodeJvmTarget, asTable, reqField, decodeBool,
    exceptOkBind, lookupKey_cons_self, lookupKey_cons_ne, lookupKey_optCons_self,
    lookupKey_optCons_ne, lookupKey_nil, decodeOpt_str]

/-- `TargetEnabled` round-trips. -/
theorem decodeTargetEnabled_encode (path : List String) (e : TargetEnabled) :
    decodeTargetEnabled path (encodeTargetEnabled e) = .ok e := by
  obtain ⟨b⟩ := e
  simp [decodeTargetEnabled, encodeTargetEnabled, asTable, reqField, decodeBool,
    exceptOkBind, lookupKey_cons_self]

/-- `NativeBinaryConfig` round-trips. -/
theorem decodeNativeBinaryConfig_encode (path : List String) (n : NativeBinaryConfig) :
    decodeNativeBinaryConfig path (encodeNativeBinaryConfig n) = .ok n := by
  obtain ⟨b, bn⟩ := n
  simp [decodeNativeBinaryConfig, encodeNativeBinaryConfig, asTable, reqField,
    exceptOkBind, lookupKey_cons_self, lookupKey_cons_ne, lookupKey_optCons_self,
    lookupKey_optCons_ne, lookupKey_nil, decodeOpt_str, decodeFygBinaryType_encode]

/-- `NativeConfig` round-trips. -/
theorem decodeNativeConfig_encode (path : List String) (n : NativeConfig) :
    decodeNativeConfig path (encodeNativeConfig n) = .ok n := by
  obtain ⟨b⟩ := n
  simp [decodeNativeConfig, encodeNativeConfig, asTable, exceptOkBind,
    lookupKey_optCons_self, lookupKey_optCons_ne, lookupKey_nil,
    decodeOpt_comp _ _ (decodeNativeBinaryConfig_encode (path ++ ["binary"]))]

/-- `TargetsConfig` round-trips. -/
theorem decodeTargetsConfig_encode (path : List String) (t : TargetsConfig) :
    decodeTargetsConfig path (encodeTargetsConfig t) = .ok t := by
  obtain ⟨j, a1, a2, a3, a4, a5, a6, nv⟩ := t
  simp [decodeTargetsConfig, encodeTargetsConfig, asTable, exceptOkBind,
    lookupKey_optCons_self, lookupKey_optCons_ne, lookupKey_nil,
    decodeOpt_comp _ _ (decodeJvmTarget_encode (path ++ ["jvm"])),
    decodeOpt_comp _ _ (decodeTargetEnabled_encode (path ++ ["ios-arm64"])),
    decodeOpt_comp _ _ (decodeTargetEnabled_encode (path ++ ["ios-x64"])),
    decodeOpt_comp _ _ (decodeTargetEnabled_encode (path ++ ["ios-simulator-arm64"])),
    decodeOpt_comp _ _ (decodeTargetEnabled_encode (path ++ ["linux-x64"])),
    decodeOpt_comp _ _ (decodeTargetEnabled_encode (path ++ ["macos-arm64"])),
    decodeOpt_comp _ _ (decodeTargetEnabled_encode (path ++ ["windows-x64"])),
    decodeOpt_comp _ _ (decodeNativeConfig_encode (path ++ ["native"]))]

/-- `DependencyConfig` round-trips. -/
theorem decodeDependencyConfig_encode (path : List String) (d : DependencyConfig) :
    decodeDependencyConfig path (encodeDependencyConfig d) = .ok d := by
  obtain ⟨p, w, v⟩ := d
  simp [decodeDependencyConfig, encodeDependencyConfig, asTable, exceptOkBind,
    lookupKey_optCons_self, lookupKey_optCons_ne, lookupKey_nil,
    decodeOpt_str, decodeOpt_bool]

/-- The untagged `DependencyValue` round-trips: strings come back as the
scalar variant, tables as the structured variant. -/
theorem decodeDependencyValue_encode (path : List String) (d : DependencyValue) :
    decodeDependencyValue path (encodeDependencyValue d) = .ok d := by
  cases d with
  | Version v => rfl
  | Complex c =>
    have h := decodeDependencyConfig_encode path c
    obtain ⟨p, w, v⟩ := c
    simp [encodeDependencyValue, encodeDependencyConfig] at h ⊢
    simp [decodeDependencyValue, h]

/-- `CustomRepository` round-trips. -/
theorem decodeCustomRepository_encode (path : List String) (c : CustomRepository) :
    decodeCustomRepository path (encodeCustomRepository c) = .ok c := by
  obtain ⟨t, u⟩ := c
  simp [decodeCustomRepository, encodeCustomRepository, asTable, reqField, decodeStr,
    exceptOkBind, lookupKey_cons_self, lookupKey_cons_ne]

/-- The untagged `RepositoryConfig` round-trips: booleans come back as
the flag variant, tables as the custom variant. -/
theorem decodeRepositoryConfig_encode (path : List String) (r : RepositoryConfig) :
    decodeRepositoryConfig path (encodeRepositoryConfig r) = .ok r := by
  cases r with
  | Enabled b => rfl
  | Custom c =>
    have h := decodeCustomRepository_encode path c
    obtain ⟨t, u⟩ := c
    simp [encodeRepositoryConfig, encodeCustomRepository] at h ⊢
    simp [decodeRepositoryConfig, h]

/-- Table entries round-trip pointwise when the element codec does. -/
theorem decodeEntries_map {α : Type} (dec : List String → Toml → Except FormatError α)
    (enc : α → Toml) (h : ∀ p a, dec p (enc a) = .ok a) (path : List String)
    (l : List (String × α)) :
    decodeEntries dec path (l.map (fun kv => (kv.1, enc kv.2))) = .ok l := by
  induction l with
  | nil => rfl
  | cons kv rest ih =>
    obtain ⟨k, v⟩ := kv
    simp [decodeEntries, h, ih, exceptOkBind]

/-- String-keyed maps round-trip when the element codec does. -/
theorem decodeStringMap_encode {α : Type} (dec : List String → Toml → Except FormatError α)
    (enc : α → Toml) (h : ∀ p a, dec p (enc a) = .ok a) (path : List String)
    (m : List (String × α)) :
    decodeStringMap dec path (encodeStringMap enc m) = .ok m := by
  simp [decodeStringMap, encodeStringMap, decodeEntries_map dec enc h]

/-- `DependenciesConfig` round-trips. -/
theorem decodeDependenciesConfig_encode (path : List String) (d : DependenciesConfig) :
    decodeDependenciesConfig path (encodeDependenciesConfig d) = .ok d := by
  obtain ⟨c, j, t⟩ := d
  simp [decodeDependenciesConfig, encodeDependenciesConfig, asTable, exceptOkBind,
    lookupKey_optCons_self, lookupKey_optCons_ne, lookupKey_nil,
    decodeOpt_comp _ _ (decodeStringMap_encode decodeDependencyValue encodeDependencyValue
      decodeDependencyValue_encode (path ++ ["common"])),
    decodeOpt_comp _ _ (decodeStringMap_encode decodeDependencyValue encodeDependencyValue
      decodeDependencyValue_encode (path ++ ["jvm"])),
    decodeOpt_comp _ _ (decodeStringMap_encode decodeDependencyValue encodeDependencyValue
      decodeDependencyValue_encode (path ++ ["test"]))]

/-- `TestConfig` round-trips. -/
theorem decodeTestConfig_encode (path : List String) (t : TestConfig) :
    decodeTestConfig path (encodeTestConfig t) = .ok t := by
  obtain ⟨f⟩ := t
  simp [decodeTestConfig, encodeTestConfig, asTable, exceptOkBind,
    lookupKey_optCons_self, lookupKey_nil, decodeOpt_str]

/-- C1: every manifest document that serializes (serialization of the
schema is total on the TOML data model) parses back to a document equal
to it in every field; in particular each absent optional section and
optional field is omitted by the encoder and decoded back to absent. -/
theorem fygToml_roundtrip (d : FygToml) : FygToml.decode (FygToml.encode d) = .ok d := by
  obtain ⟨p, b, tg, dp, ts, rp⟩ := d
  cases b <;> cases tg <;> cases dp <;> cases ts <;> cases rp <;>
    simp [FygToml.decode, FygToml.encode, asTable, decodeFygEntries, fygAccInit,
      optCons, exceptOkBind, decodeProjectConfig_encode, decodeBuildConfig_encode,
      decodeTargetsConfig_encode, decodeDependenciesConfig_encode,
      decodeTestConfig_encode,
      decodeStringMap_encode decodeRepositoryConfig encodeRepositoryConfig
        decodeRepositoryConfig_encode ["repositories"]]

/-- C2: `FygToml::new` is total and yields exactly the given name and
group, the fixed default version, absent optional project fields, and
all five optional sections absent. -/
theorem fygToml_new_defaults (name group : String) :
    (FygToml.new name group).project.name = name ∧
    (FygToml.new name group).project.group = group ∧
    (FygToml.new name group).project.version = "1.0.0-SNAPSHOT" ∧
    (FygToml.new name group).project.authors = none ∧
    (FygToml.new name group).project.description = none ∧
    (FygToml.new name group).build = none ∧
    (FygToml.new name group).targets = none ∧
    (FygToml.new name group).dependencies = none ∧
    (FygToml.new name group).test = none ∧
    (FygToml.new name group).repositories = none :=
  ⟨rfl, rfl, rfl, rfl, rfl, rfl, rfl, rfl, rfl, rfl⟩

/-- C3: a dependency entry that is the string "1.2.3" decodes to the
scalar variant with that version; the table with only `path = "../lib"`
decodes to the structured variant with `path` set and `version` and
`workspace` absent; a value that is neither a string nor a table (a
list) fails with a format error carrying the offending key path. -/
theorem dependencyValue_disambiguation (path : List String) :
    decodeDependencyValue path (.str "1.2.3") = .ok (.Version "1.2.3") ∧
    decodeDependencyValue path (.table [("path", .str "../lib")]) =
      .ok (.Complex { path := some "../lib", workspace := none, version := none }) ∧
    decodeDependencyValue path (.arr [.str "a", .str "b"]) =
      .error (.untaggedMismatch path "DependencyValue") := by
  refine ⟨rfl, ?_, rfl⟩
  simp [decodeDependencyValue, decodeDependencyConfig, asTable, exceptOkBind,
    lookupKey, decodeOpt, decodeStr]

/-- C9: the external-name mapping of `FygBinaryType` is exactly the five
listed camelCase names, the `Display` implementation prints the same
names, decoding is a two-sided inverse on those names, and decoding is
case-sensitive (neither "sharedlib" nor "SHAREDLIB" decodes). -/
theorem fygBinaryType_name_mapping :
    FygBinaryType.externalName .Executable = "executable" ∧
    FygBinaryType.externalName .Test = "test" ∧
    FygBinaryType.externalName .SharedLib = "sharedLib" ∧
    FygBinaryType.externalName .StaticLib = "staticLib" ∧
    FygBinaryType.externalName .Framework = "framework" ∧
    (∀ b : FygBinaryType, FygBinaryType.display b = FygBinaryType.externalName b) ∧
    (∀ (path : List String) (b : FygBinaryType),
      decodeFygBinaryType path (.str b.externalName) = .ok b) ∧
    (∀ (path : List String) (b : FygBinaryType) (s : String),
      decodeFygBinaryType path (.str s) = .ok b → s = b.externalName) ∧
    (∀ path : List String, decodeFygBinaryType path (.str "sharedlib") =
      .error (.unknownVariant path "sharedlib")) ∧
    (∀ path : List String, decodeFygBinaryType path (.str "SHAREDLIB") =
      .error (.unknownVariant path "SHAREDLIB")) := by
  refine ⟨rfl, rfl, rfl, rfl, rfl, ?_, ?_, ?_, fun _ => rfl, fun _ => rfl⟩
  · intro b; cases b <;> rfl
  · intro path b; cases b <;> rfl
  · intro path b s h
    rcases eq_or_ne s "executable" with rfl | h1
    · simp only [decodeFygBinaryType, Except.ok.injEq] at h
      subst h; rfl
    rcases eq_or_ne s "test" with rfl | h2
    · simp only [decodeFygBinaryType, Except.ok.injEq] at h
      subst h; rfl
    rcases eq_or_ne s "sharedLib" with rfl | h3
    · simp only [decodeFygBinaryType, Except.ok.injEq] at h
      subst h; rfl
    rcases eq_or_ne s "staticLib" with rfl | h4
    · simp only [decodeFygBinaryType, Except.ok.injEq] at h
      subst h; rfl
    rcases eq_or_ne s "framework" with rfl | h5
    · simp only [decodeFygBinaryType, Except.ok.injEq] at h
      subst h; rfl
    · simp [decodeFygBinaryType, h1, h2, h3, h4, h5] at h

/-- The visitor loop for `ProjectConfig` sets a required field exactly
when the accumulator already had it or the key occurs in the remaining
entries. -/
theorem decodeProjectEntries_fields (path : List String)
    (kvs : List (String × Toml)) :
    ∀ (acc acc' : ProjectAcc), decodeProjectEntries path acc kvs = .ok acc' →
      (acc'.name.isSome ↔ (acc.name.isSome ∨ (lookupKey kvs "name").isSome)) ∧
      (acc'.group.isSome ↔ (acc.group.isSome ∨ (lookupKey kvs "group").isSome)) ∧
      (acc'.version.isSome ↔ (acc.version.isSome ∨ (lookupKey kvs "version").isSome)) := by
  induction kvs with
  | nil =>
    intro acc acc' h
    simp [decodeProjectEntries] at h
    subst h
    simp [lookupKey]
  | cons kv rest ih =>
    intro acc acc' h
    obtain ⟨k, v⟩ := kv
    by_cases h1 : k = "name"
    · subst h1
      simp only [decodeProjectEntries, if_pos rfl] at h
      cases hn : acc.name with
      | some s => rw [hn] at h; simp [exceptErrBind] at h
      | none =>
        rw [hn] at h
        cases hs : decodeStr (path ++ ["name"]) v with
        | error e => rw [hs] at h; simp [exceptErrBind] at h
        | ok s =>
          rw [hs] at h
          simp only [exceptOkBind] at h
          have ihh := ih _ _ h
          simp [lookupKey_cons_self, lookupKey_cons_ne, ihh.1, ihh.2.1, ihh.2.2, hn]
    by_cases h2 : k = "group"
    · subst h2
      simp only [decodeProjectEntries, if_pos rfl, if_neg h1] at h
      cases hg : acc.group with
      | some s => rw [hg] at h; simp [exceptErrBind] at h
      | none =>
        rw [hg] at h
        cases hs : decodeStr (path ++ ["group"]) v with
        | error e => rw [hs] at h; simp [exceptErrBind] at h
        | ok s =>
          rw [hs] at h
          simp only [exceptOkBind] at h
          have ihh := ih _ _ h
          simp [lookupKey_cons_self, lookupKey_cons_ne, ihh.1, ihh.2.1, ihh.2.2, hg]
    by_cases h3 : k = "version"
    · subst h3
      simp only [decodeProjectEntries, if_pos rfl, if_neg h1, if_neg h2] at h
      cases hv : acc.version with
      | some s => rw [hv] at h; simp [exceptErrBind] at h
      | none =>
        rw [hv] at h
        cases hs : decodeStr (path ++ ["version"]) v with
        | error e => rw [hs] at h; simp [exceptErrBind] at h
        | ok s =>
          rw [hs] at h
          simp only [exceptOkBind] at h
          have ihh := ih _ _ h
          simp [lookupKey_cons_self, lookupKey_cons_ne, ihh.1, ihh.2.1, ihh.2.2, hv]
    by_cases h4 : k = "authors"
    · subst h4
      simp only [decodeProjectEntries, if_pos rfl, if_neg h1, if_neg h2, if_neg h3] at h
      cases ha : acc.authors with
      | some s => rw [ha] at h; simp [exceptErrBind] at h
      | none =>
        rw [ha] at h
        cases hs : decodeStrArr (path ++ ["authors"]) v with
        | error e => rw [hs] at h; simp [exceptErrBind] at h
        | ok s =>
          rw [hs] at h
          simp only [exceptOkBind] at h
          have ihh := ih _ _ h
          simp [lookupKey_cons_ne, h1, h2, h3, ihh.1, ihh.2.1, ihh.2.2]
    by_cases h5 : k = "description"
    · subst h5
      simp only [decodeProjectEntries, if_pos rfl, if_neg h1, if_neg h2, if_neg h3,
        if_neg h4] at h
      cases hd : acc.description with
      | some s => rw [hd] at h; simp [exceptErrBind] at h
      | none =>
        rw [hd] at h
        cases hs : decodeStr (path ++ ["description"]) v with
        | error e => rw [hs] at h; simp [exceptErrBind] at h
        | ok s =>
          rw [hs] at h
          simp only [exceptOkBind] at h
          have ihh := ih _ _ h
          simp [lookupKey_cons_ne, h1, h2, h3, ihh.1, ihh.2.1, ihh.2.2]
    · simp only [decodeProjectEntries, if_neg h1, if_neg h2, if_neg h3, if_neg h4,
        if_neg h5] at h
      have ihh := ih _ _ h
      simp [lookupKey_cons_ne, h1, h2, h3, ihh.1, ihh.2.1, ihh.2.2]

/-- Once the top-level visitor has decoded a `project` section, a
successful continuation leaves it unchanged (a second `project` key is a
duplicate-field error). -/
theorem decodeFygEntries_project_stable (kvs : List (String × Toml)) :
    ∀ (acc acc' : FygAcc) (p : ProjectConfig),
      decodeFygEntries acc kvs = .ok acc' → acc.project = some p →
      acc'.project = some p := by
  induction kvs with
  | nil =>
    intro acc acc' p h hp
    simp [decodeFygEntries] at h
    subst h
    exact hp
  | cons kv rest ih =>
    intro acc acc' p h hp
    obtain ⟨k, v⟩ := kv
    by_cases h1 : k = "project"
    · subst h1
      simp only [decodeFygEntries, if_pos rfl] at h
      rw [hp] at h
      simp [exceptErrBind] at h
    by_cases h2 : k = "build"
    · subst h2
      simp only [decodeFygEntries, if_pos rfl, if_neg h1] at h
      cases hb : acc.build with
      | some s => rw [hb] at h; simp [exceptErrBind] at h
      | none =>
        rw [hb] at h
        cases hs : decodeBuildConfig ["build"] v with
        | error e => rw [hs] at h; simp [exceptErrBind] at h
        | ok c =>
          rw [hs] at h
          simp only [exceptOkBind] at h
          exact ih _ _ p h hp
    by_cases h3 : k = "targets"
    · subst h3
      simp only [decodeFygEntries, if_pos rfl, if_neg h1, if_neg h2] at h
      cases hb : acc.targets with
      | some s => rw [hb] at h; simp [exceptErrBind] at h
      | none =>
        rw [hb] at h
        cases hs : decodeTargetsConfig ["targets"] v with
        | error e => rw [hs] at h; simp [exceptErrBind] at h
        | ok c =>
          rw [hs] at h
          simp only [exceptOkBind] at h
          exact ih _ _ p h hp
    by_cases h4 : k = "dependencies"
    · subst h4
      simp only [decodeFygEntries, if_pos rfl, if_neg h1, if_neg h2, if_neg h3] at h
      cases hb : acc.dependencies with
      | some s => rw [hb] at h; simp [exceptErrBind] at h
      | none =>
        rw [hb] at h
        cases hs : decodeDependenciesConfig ["dependencies"] v with
        | error e => rw [hs] at h; simp [exceptErrBind] at h
        | ok c =>
          rw [hs] at h
          simp only [exceptOkBind] at h
          exact ih _ _ p h hp
    by_cases h5 : k = "test"
    · subst h5
      simp only [decodeFygEntries, if_pos rfl, if_neg h1, if_neg h2, if_neg h3,
        if_neg h4] at h
      cases hb : acc.test with
      | some s => rw [hb] at h; simp [exceptErrBind] at h
      | none =>
        rw [hb] at h
        cases hs : decodeTestConfig ["test"] v with
        | error e => rw [hs] at h; simp [exceptErrBind] at h
        | ok c =>
          rw [hs] at h
          simp only [exceptOkBind] at h
          exact ih _ _ p h hp
    by_cases h6 : k = "repositories"
    · subst h6
      simp only [decodeFygEntries, if_pos rfl, if_neg h1, if_neg h2, if_neg h3,
        if_neg h4, if_neg h5] at h
      cases hb : acc.repositories with
      | some s => rw [hb] at h; simp [exceptErrBind] at h
      | none =>
        rw [hb] at h
        cases hs : decodeStringMap decodeRepositoryConfig ["repositories"] v with
        | error e => rw [hs] at h; simp [exceptErrBind] at h
        | ok c =>
          rw [hs] at h
          simp only [exceptOkBind] at h
          exact ih _ _ p h hp
    · simp only [decodeFygEntries, if_neg h1, if_neg h2, if_neg h3, if_neg h4,
        if_neg h5, if_neg h6] at h
      exact ih _ _ p h hp

/-- When the top-level visitor ends with a decoded `project` section, the
input contained a `project` entry whose value decodes to it. -/
theorem decodeFygEntries_project_found (kvs : List (String × Toml)) :
    ∀ (acc acc' : FygAcc) (p : ProjectConfig),
      decodeFygEntries acc kvs = .ok acc' → acc.project = none →
      acc'.project = some p →
      ∃ pv, lookupKey kvs "project" = some pv ∧
        decodeProjectConfig ["project"] pv = .ok p := by
  induction kvs with
  | nil =>
    intro acc acc' p h h0 hs
    simp [decodeFygEntries] at h
    subst h
    rw [h0] at hs
    cases hs
  | cons kv rest ih =>
    intro acc acc' p h h0 hs
    obtain ⟨k, v⟩ := kv
    by_cases h1 : k = "project"
    · subst h1
      simp only [decodeFygEntries, if_pos rfl] at h
      rw [h0] at h
      cases hdp : decodeProjectConfig ["project"] v with
      | error e => rw [hdp] at h; simp [exceptErrBind] at h
      | ok p' =>
        rw [hdp] at h
        simp only [exceptOkBind] at h
        have hst := decodeFygEntries_project_stable rest _ acc' p' h rfl
        rw [hst] at hs
        cases hs
        exact ⟨v, lookupKey_cons_self _ _ _, hdp⟩
    by_cases h2 : k = "build"
    · subst h2
      simp only [decodeFygEntries, if_pos rfl, if_neg h1] at h
      cases hb : acc.build with
      | some s => rw [hb] at h; simp [exceptErrBind] at h
      | none =>
        rw [hb] at h
        cases hc : decodeBuildConfig ["build"] v with
        | error e => rw [hc] at h; simp [exceptErrBind] at h
        | ok c =>
          rw [hc] at h
          simp only [exceptOkBind] at h
          obtain ⟨pv, hl, hd⟩ := ih _ _ p h h0 hs
          exact ⟨pv, by rw [lookupKey_cons_ne _ _ _ _ h1]; exact hl, hd⟩
    by_cases h3 : k = "targets"
    · subst h3
      simp only [decodeFygEntries, if_pos rfl, if_neg h1, if_neg h2] at h
      cases hb : acc.targets with
      | some s => rw [hb] at h; simp [exceptErrBind] at h
      | none =>
        rw [hb] at h
        cases hc : decodeTargetsConfig ["targets"] v with
        | error e => rw [hc] at h; simp [exceptErrBind] at h
        | ok c =>
          rw [hc] at h
          simp only [exceptOkBind] at h
          obtain ⟨pv, hl, hd⟩ := ih _ _ p h h0 hs
          exact ⟨pv, by rw [lookupKey_cons_ne _ _ _ _ h1]; exact hl, hd⟩
    by_cases h4 : k = "dependencies"
    · subst h4
      simp only [decodeFygEntries, if_pos rfl, if_neg h1, if_neg h2, if_neg h3] at h
      cases hb : acc.dependencies with
      | some s => rw [hb] at h; simp [exceptErrBind] at h
      | none =>
        rw [hb] at h
        cases hc : decodeDependenciesConfig ["dependencies"] v with
        | error e => rw [hc] at h; simp [exceptErrBind] at h
        | ok c =>
          rw [hc] at h
          simp only [exceptOkBind] at h
          obtain ⟨pv, hl, hd⟩ := ih _ _ p h h0 hs
          exact ⟨pv, by rw [lookupKey_cons_ne _ _ _ _ h1]; exact hl, hd⟩
    by_cases h5 : k = "test"
    · subst h5
      simp only [decodeFygEntries, if_pos rfl, if_neg h1, if_neg h2, if_neg h3,
        if_neg h4] at h
      cases hb : acc.test with
      | some s => rw [hb] at h; simp [exceptErrBind] at h
      | none =>
        rw [hb] at h
        cases hc : decodeTestConfig ["test"] v with
        | error e => rw [hc] at h; simp [exceptErrBind] at h
        | ok c =>
          rw [hc] at h
          simp only [exceptOkBind] at h
          obtain ⟨pv, hl, hd⟩ := ih _ _ p h h0 hs
          exact ⟨pv, by rw [lookupKey_cons_ne _ _ _ _ h1]; exact hl, hd⟩
    by_cases h6 : k = "repositories"
    · subst h6
      simp only [decodeFygEntries, if_pos rfl, if_neg h1, if_neg h2, if_neg h3,
        if_neg h4, if_neg h5] at h
      cases hb : acc.repositories with
      | some s => rw [hb] at h; simp [exceptErrBind] at h
      | none =>
        rw [hb] at h
        cases hc : decodeStringMap decodeRepositoryConfig ["repositories"] v with
        | error e => rw [hc] at h; simp [exceptErrBind] at h
        | ok c =>
          rw [hc] at h
          simp only [exceptOkBind] at h
          obtain ⟨pv, hl, hd⟩ := ih _ _ p h h0 hs
          exact ⟨pv, by rw [lookupKey_cons_ne _ _ _ _ h1]; exact hl, hd⟩
    · simp only [decodeFygEntries, if_neg h1, if_neg h2, if_neg h3, if_neg h4,
        if_neg h5, if_neg h6] at h
      obtain ⟨pv, hl, hd⟩ := ih _ _ p h h0 hs
      exact ⟨pv, by rw [lookupKey_cons_ne _ _ _ _ h1]; exact hl, hd⟩

/-- A successfully decoded manifest had a decodable `project` value. -/
theorem fygToml_decode_ok_project (kvs : List (String × Toml)) (d : FygToml)
    (h : FygToml.decode (.table kvs) = .ok d) :
    ∃ pv p, lookupKey kvs "project" = some pv ∧
      decodeProjectConfig ["project"] pv = .ok p := by
  simp only [FygToml.decode, asTable, exceptOkBind] at h
  cases hacc : decodeFygEntries fygAccInit kvs with
  | error e => rw [hacc] at h; simp [exceptErrBind] at h
  | ok acc =>
    rw [hacc] at h
    simp only [exceptOkBind] at h
    cases hp : acc.project with
    | none => rw [hp] at h; simp [exceptErrBind] at h
    | some p =>
      obtain ⟨pv, hl, hd⟩ :=
        decodeFygEntries_project_found kvs fygAccInit acc p hacc rfl hp
      exact ⟨pv, p, hl, hd⟩

/-- A successfully decoded `ProjectConfig` had its three required keys
present in the source table. -/
theorem decodeProjectConfig_ok_present (path : List String)
    (pkvs : List (String × Toml)) (p : ProjectConfig)
    (h : decodeProjectConfig path (.table pkvs) = .ok p) :
    (lookupKey pkvs "name").isSome ∧ (lookupKey pkvs "group").isSome ∧
      (lookupKey pkvs "version").isSome := by
  simp only [decodeProjectConfig, asTable, exceptOkBind] at h
  cases hacc : decodeProjectEntries path projectAccInit pkvs with
  | error e => rw [hacc] at h; simp [exceptErrBind] at h
  | ok acc =>
    rw [hacc] at h
    simp only [exceptOkBind] at h
    obtain ⟨f1, f2, f3⟩ := decodeProjectEntries_fields path pkvs projectAccInit acc hacc
    cases hn : acc.name with
    | none => rw [hn] at h; simp [exceptErrBind] at h
    | some n =>
      cases hg : acc.group with
      | none => rw [hn, hg] at h; simp [exceptErrBind] at h
      | some g =>
        cases hv : acc.version with
        | none => rw [hn, hg, hv] at h; simp [exceptErrBind] at h
        | some vv =>
          refine ⟨?_, ?_, ?_⟩
          · have := f1.mp (by simp [hn])
            simpa [projectAccInit] using this
          · have := f2.mp (by simp [hg])
            simpa [projectAccInit] using this
          · have := f3.mp (by simp [hv])
            simpa [projectAccInit] using this

/-- C4: a successful parse implies the `project` table was present with
its three required keys `name`, `group`, `version` (contrapositively, a
manifest missing one of them never parses); and, mirroring serde's
behavior — values are deserialized during the input-order traversal of
the project table and the missing-field checks run afterwards in
declaration order — when the project entry leads the manifest and its
table traverses without a value error, the parse fails with the
missing-field error naming the first absent required field. -/
theorem fygToml_required_fields :
    (∀ (kvs : List (String × Toml)) (d : FygToml),
      FygToml.decode (.table kvs) = .ok d →
      ∃ pkvs, lookupKey kvs "project" = some (.table pkvs) ∧
        (lookupKey pkvs "name").isSome ∧ (lookupKey pkvs "group").isSome ∧
        (lookupKey pkvs "version").isSome) ∧
    (∀ (pkvs rest : List (String × Toml)) (acc : ProjectAcc),
      decodeProjectEntries ["project"] projectAccInit pkvs = .ok acc →
      ((lookupKey pkvs "name" = none →
        FygToml.decode (.table (("project", .table pkvs) :: rest)) =
          .error (.missingField ["project"] "name")) ∧
      ((lookupKey pkvs "name").isSome → lookupKey pkvs "group" = none →
        FygToml.decode (.table (("project", .table pkvs) :: rest)) =
          .error (.missingField ["project"] "group")) ∧
      ((lookupKey pkvs "name").isSome → (lookupKey pkvs "group").isSome →
        lookupKey pkvs "version" = none →
        FygToml.decode (.table (("project", .table pkvs) :: rest)) =
          .error (.missingField ["project"] "version")))) := by
  constructor
  · intro kvs d h
    obtain ⟨pv, p, hl, hd⟩ := fygToml_decode_ok_project kvs d h
    cases pv with
    | str s => simp [decodeProjectConfig, asTable, exceptErrBind] at hd
    | boolean b => simp [decodeProjectConfig, asTable, exceptErrBind] at hd
    | int n => simp [decodeProjectConfig, asTable, exceptErrBind] at hd
    | arr es => simp [decodeProjectConfig, asTable, exceptErrBind] at hd
    | table pkvs =>
      exact ⟨pkvs, hl, decodeProjectConfig_ok_present ["project"] pkvs p hd⟩
  · intro pkvs rest acc hacc
    obtain ⟨f1, f2, f3⟩ :=
      decodeProjectEntries_fields ["project"] pkvs projectAccInit acc hacc
    refine ⟨?_, ?_, ?_⟩
    · intro hn
      have hnone : acc.name = none := by
        rw [← Option.not_isSome_iff_eq_none]
        intro contra
        have := f1.mp contra
        simp [projectAccInit, hn] at this
      have hd : decodeProjectConfig ["project"] (.table pkvs) =
          .error (.missingField ["project"] "name") := by
        simp [decodeProjectConfig, asTable, hacc, exceptOkBind, hnone]
      simp [FygToml.decode, asTable, decodeFygEntries, fygAccInit, hd,
        exceptOkBind, exceptErrBind]
    · intro hn hg
      obtain ⟨n, hnsome⟩ := Option.isSome_iff_exists.mp (f1.mpr (Or.inr hn))
      have hgnone : acc.group = none := by
        rw [← Option.not_isSome_iff_eq_none]
        intro contra
        have := f2.mp contra
        simp [projectAccInit, hg] at this
      have hd : decodeProjectConfig ["project"] (.table pkvs) =
          .error (.missingField ["project"] "group") := by
        simp [decodeProjectConfig, asTable, hacc, exceptOkBind, hnsome, hgnone]
      simp [FygToml.decode, asTable, decodeFygEntries, fygAccInit, hd,
        exceptOkBind, exceptErrBind]
    · intro hn hg hv
      obtain ⟨n, hnsome⟩ := Option.isSome_iff_exists.mp (f1.mpr (Or.inr hn))
      obtain ⟨g, hgsome⟩ := Option.isSome_iff_exists.mp (f2.mpr (Or.inr hg))
      have hvnone : acc.version = none := by
        rw [← Option.not_isSome_iff_eq_none]
        intro contra
        have := f3.mp contra
        simp [projectAccInit, hv] at this
      have hd : decodeProjectConfig ["project"] (.table pkvs) =
          .error (.missingField ["project"] "version") := by
        simp [decodeProjectConfig, asTable, hacc, exceptOkBind, hnsome, hgsome,
          hvnone]
      simp [FygToml.decode, asTable, decodeFygEntries, fygAccInit, hd,
        exceptOkBind, exceptErrBind]

/-- Witness for C4: a concrete manifest whose `project` table lacks
`version` fails with the missing-field error naming `version`. -/
theorem fygToml_required_fields_witness :
    FygToml.decode (.table [("project",
        .table [("name", .str "my-app"), ("group", .str "com.example")])]) =
      .error (.missingField ["project"] "version") :=
  ((fygToml_required_fields.2
      [("name", .str "my-app"), ("group", .str "com.example")] []
      { name := some "my-app", group := some "com.example", version := none,
        authors := none, description := none } rfl).2.2) rfl rfl rfl

/-- Appending an entry with a fresh key does not change lookups at other
keys. -/
theorem lookupKey_append_ne (kvs : List (String × Toml)) (k : String) (v : Toml)
    (key : String) (h : ¬ (k = key)) :
    lookupKey (kvs ++ [(k, v)]) key = lookupKey kvs key := by
  induction kvs with
  | nil => simp [lookupKey, h]
  | cons kv rest ih =>
    obtain ⟨k', v'⟩ := kv
    by_cases hk : k' = key <;> simp [lookupKey, hk, ih]

/-- C5 counterexample: a manifest whose targets table carries the
unrecognized key "wasm32" parses successfully (serde ignores unknown
keys; there is no `deny_unknown_fields` on `TargetsConfig`), contrary to
the claimed parse failure. -/
theorem targets_unknown_key_parses :
    FygToml.decode (.table [("project",
        .table [("name", .str "a"), ("group", .str "b"), ("version", .str "1")]),
      ("targets", .table [("wasm32", .boolean true)])]) =
      .ok { project := { name := "a", group := "b", version := "1",
                         authors := none, description := none },
            build := none,
            targets := some { jvm := none, ios_arm64 := none, ios_x64 := none,
                              ios_simulator_arm64 := none, linux_x64 := none,
                              macos_arm64 := none, windows_x64 := none,
                              native := none },
            dependencies := none,
            test := none,
            repositories := none } := by
  rfl

/-- C5 (amended): an entry with a key outside the eight recognized slots
is silently ignored by the targets decoder; parsing succeeds with the
same result as without the unknown entry. -/
theorem targets_unknown_keys_ignored (path : List String)
    (kvs : List (String × Toml)) (k : String) (v : Toml)
    (h : ¬ k ∈ (["jvm", "ios-arm64", "ios-x64", "ios-simulator-arm64",
      "linux-x64", "macos-arm64", "windows-x64", "native"] : List String)) :
    decodeTargetsConfig path (.table (kvs ++ [(k, v)])) =
      decodeTargetsConfig path (.table kvs) := by
  simp only [List.mem_cons, List.mem_singleton, not_or] at h
  obtain ⟨h1, h2, h3, h4, h5, h6, h7, h8, -⟩ := h
  simp only [decodeTargetsConfig, asTable, exceptOkBind,
    lookupKey_append_ne kvs k v "jvm" h1,
    lookupKey_append_ne kvs k v "ios-arm64" h2,
    lookupKey_append_ne kvs k v "ios-x64" h3,
    lookupKey_append_ne kvs k v "ios-simulator-arm64" h4,
    lookupKey_append_ne kvs k v "linux-x64" h5,
    lookupKey_append_ne kvs k v "macos-arm64" h6,
    lookupKey_append_ne kvs k v "windows-x64" h7,
    lookupKey_append_ne kvs k v "native" h8]

/-- Witness for the amended C5: appending `wasm32 = true` to a targets
table with a jvm slot leaves decoding unchanged. -/
theorem targets_unknown_keys_ignored_witness :
    decodeTargetsConfig ["targets"]
        (.table ([("jvm", Toml.table [("enabled", .boolean true)])] ++
          [("wasm32", .boolean true)])) =
      decodeTargetsConfig ["targets"]
        (.table [("jvm", Toml.table [("enabled", .boolean true)])]) :=
  targets_unknown_keys_ignored ["targets"]
    [("jvm", Toml.table [("enabled", .boolean true)])] "wasm32" (.boolean true)
    (by decide)

/-- Splits the character stream of a path string into its non-empty
segments at '/' (how `Path` components behave on the platform path
separator). -/
def splitSegsAux (cur : List Char) : List Char → List String
  | [] => if cur = [] then [] else [String.mk cur.reverse]
  | c :: rest =>
    if c = '/' then
      if cur = [] then splitSegsAux [] rest
      else String.mk cur.reverse :: splitSegsAux [] rest
    else splitSegsAux (c :: cur) rest

/-- The path segments of a path string. -/
def splitSegments (s : String) : List String :=
  splitSegsAux [] s.data

/-- Whether a path string is absolute (starts with the separator). -/
def strIsAbsolute (s : String) : Bool :=
  match s.data with
  | '/' :: _ => true
  | _ => false

/-- A filesystem path: whether it is rooted, and its segments.  This is
the component view of Rust's `PathBuf`. -/
structure FsPath where
  absolute : Bool
  components : List String
deriving DecidableEq, Repr

/-- Rust's `Path::join` with a string argument: an absolute argument
replaces the whole path, a relative one appends its segments. -/
def FsPath.joinStr (p : FsPath) (s : String) : FsPath :=
  if strIsAbsolute s then { absolute := true, components := splitSegments s }
  else { absolute := p.absolute, components := p.components ++ splitSegments s }

/-- `group.replace('.', "/")` from `Fyg::init`: the single-character
pattern replacement maps each '.' to '/'. -/
def replaceDots (s : String) : String :=
  String.mk (s.data.map (fun c => if c = '.' then '/' else c))

/-- `Fyg::init`'s derived source root:
`folder.join("src").join("kotlin").join(group.replace('.', "/"))`. -/
def Fyg.srcRootPath (folderPath : FsPath) (group : String) : FsPath :=
  ((folderPath.joinStr "src").joinStr "kotlin").joinStr (replaceDots group)

/-- An explicit filesystem state: file contents (the manifest text is
represented by its TOML value), the set of directories, and the paths on
which the OS refuses the write or mkdir (permissions, disk errors). -/
structure FS where
  files : List (FsPath × Toml)
  dirs : List FsPath
  deniedFiles : List FsPath
  deniedDirs : List FsPath

/-- `std::fs::write`: fails on a denied path, otherwise replaces the
file's content.  Returns the resulting state and whether it succeeded. -/
def FS.writeFile (fs : FS) (p : FsPath) (c : Toml) : FS × Bool :=
  if p ∈ fs.deniedFiles then (fs, false)
  else ({ fs with files := (p, c) :: fs.files.filter (fun e => ¬ (e.1 = p)) }, true)

/-- `std::fs::create_dir_all`: fails on a denied path, succeeds (without
change) if the directory exists, otherwise records it. -/
def FS.createDirAll (fs : FS) (p : FsPath) : FS × Bool :=
  if p ∈ fs.deniedDirs then (fs, false)
  else if p ∈ fs.dirs then (fs, true)
  else ({ fs with dirs := p :: fs.dirs }, true)

/-- Reads a file's content. -/
def FS.readFile (fs : FS) (p : FsPath) : Option Toml :=
  (fs.files.find? (fun e => e.1 = p)).map (fun e => e.2)

/-- `Fyg::init` from src/lib.rs: writes `fyg.toml` into the folder
first, then creates the derived source-root directory tree.  Execution
stops at the first failing operation. -/
def Fyg.init (folderPath : FsPath) (fygToml : FygToml) (fs : FS) : FS × Bool :=
  let w := fs.writeFile (folderPath.joinStr "fyg.toml") fygToml.encode
  if w.2 then w.1.createDirAll (Fyg.srcRootPath folderPath fygToml.project.group)
  else (w.1, false)

/-- `Fyg::new` from src/lib.rs: creates `folder_path/<project.name>` and
then initialises it. -/
def Fyg.new (folderPath : FsPath) (fygToml : FygToml) (fs : FS) : FS × Bool :=
  let d := fs.createDirAll (folderPath.joinStr fygToml.project.name)
  if d.2 then Fyg.init (folderPath.joinStr fygToml.project.name) fygToml d.1
  else (d.1, false)

/-- Writing succeeds exactly when the path is not denied. -/
theorem FS.writeFile_ok_iff (fs : FS) (p : FsPath) (c : Toml) :
    (fs.writeFile p c).2 = true ↔ ¬ p ∈ fs.deniedFiles := by
  by_cases h : p ∈ fs.deniedFiles <;> simp [FS.writeFile, h]

/-- Directory creation succeeds exactly when the path is not denied. -/
theorem FS.createDirAll_ok_iff (fs : FS) (p : FsPath) :
    (fs.createDirAll p).2 = true ↔ ¬ p ∈ fs.deniedDirs := by
  by_cases h : p ∈ fs.deniedDirs <;> by_cases h2 : p ∈ fs.dirs <;>
    simp [FS.createDirAll, h, h2]

/-- Writing does not change the denied sets or the directories. -/
theorem FS.writeFile_state (fs : FS) (p : FsPath) (c : Toml) :
    (fs.writeFile p c).1.deniedFiles = fs.deniedFiles ∧
    (fs.writeFile p c).1.deniedDirs = fs.deniedDirs ∧
    (fs.writeFile p c).1.dirs = fs.dirs := by
  by_cases h : p ∈ fs.deniedFiles <;> simp [FS.writeFile, h]

/-- Directory creation does not change the denied sets or the files. -/
theorem FS.createDirAll_state (fs : FS) (p : FsPath) :
    (fs.createDirAll p).1.deniedFiles = fs.deniedFiles ∧
    (fs.createDirAll p).1.deniedDirs = fs.deniedDirs ∧
    (fs.createDirAll p).1.files = fs.files := by
  by_cases h : p ∈ fs.deniedDirs <;> by_cases h2 : p ∈ fs.dirs <;>
    simp [FS.createDirAll, h, h2]

/-- A successful directory creation leaves the directory present. -/
theorem FS.createDirAll_mem (fs : FS) (p : FsPath)
    (h : (fs.createDirAll p).2 = true) : p ∈ (fs.createDirAll p).1.dirs := by
  by_cases h1 : p ∈ fs.deniedDirs <;> by_cases h2 : p ∈ fs.dirs <;>
    simp [FS.createDirAll, h1, h2] at h ⊢

/-- Directory creation only adds directories. -/
theorem FS.createDirAll_dirs_mono (fs : FS) (p q : FsPath)
    (h : q ∈ fs.dirs) : q ∈ (fs.createDirAll p).1.dirs := by
  by_cases h1 : p ∈ fs.deniedDirs <;> by_cases h2 : p ∈ fs.dirs <;>
    simp [FS.createDirAll, h1, h2, h]

/-- A successful write leaves exactly the written content at the path. -/
theorem FS.writeFile_readFile (fs : FS) (p : FsPath) (c : Toml)
    (h : ¬ p ∈ fs.deniedFiles) : (fs.writeFile p c).1.readFile p = some c := by
  simp [FS.writeFile, h, FS.readFile]

/-- Directory creation does not change any file content. -/
theorem FS.createDirAll_readFile (fs : FS) (p q : FsPath) :
    (fs.createDirAll p).1.readFile q = fs.readFile q := by
  by_cases h1 : p ∈ fs.deniedDirs <;> by_cases h2 : p ∈ fs.dirs <;>
    simp [FS.createDirAll, h1, h2, FS.readFile]

/-- A successful `Fyg::init` decomposes into a permitted manifest write
followed by a permitted source-root creation. -/
theorem fyg_init_ok_decomp (dir : FsPath) (t : FygToml) (fs : FS)
    (h : (Fyg.init dir t fs).2 = true) :
    ¬ dir.joinStr "fyg.toml" ∈ fs.deniedFiles ∧
    ¬ Fyg.srcRootPath dir t.project.group ∈ fs.deniedDirs ∧
    (Fyg.init dir t fs).1 =
      ((fs.writeFile (dir.joinStr "fyg.toml") t.encode).1.createDirAll
        (Fyg.srcRootPath dir t.project.group)).1 := by
  by_cases hw : (fs.writeFile (dir.joinStr "fyg.toml") t.encode).2 = true
  · simp only [Fyg.init, hw, if_true] at h ⊢
    refine ⟨(FS.writeFile_ok_iff fs _ _).mp hw, ?_, trivial⟩
    have hdd := (FS.writeFile_state fs (dir.joinStr "fyg.toml") t.encode).2.1
    have hcd := (FS.createDirAll_ok_iff
      (fs.writeFile (dir.joinStr "fyg.toml") t.encode).1
      (Fyg.srcRootPath dir t.project.group)).mp h
    rw [hdd] at hcd
    exact hcd
  · simp only [Fyg.init, hw, if_false] at h
    simp [hw] at h

/-- A successful `Fyg::new` decomposes into a permitted project-directory
creation followed by a successful `Fyg::init` on the created state. -/
theorem fyg_new_ok_decomp (folder : FsPath) (t : FygToml) (fs : FS)
    (h : (Fyg.new folder t fs).2 = true) :
    ¬ folder.joinStr t.project.name ∈ fs.deniedDirs ∧
    (Fyg.new folder t fs).1 =
      (Fyg.init (folder.joinStr t.project.name) t
        (fs.createDirAll (folder.joinStr t.project.name)).1).1 ∧
    (Fyg.init (folder.joinStr t.project.name) t
      (fs.createDirAll (folder.joinStr t.project.name)).1).2 = true := by
  by_cases hd : (fs.createDirAll (folder.joinStr t.project.name)).2 = true
  · simp only [Fyg.new, hd, if_true] at h ⊢
    exact ⟨(FS.createDirAll_ok_iff fs _).mp hd, trivial, h⟩
  · simp only [Fyg.new, hd, if_false] at h
    simp [hd] at h

/-- C6: a successful `Fyg::init` creates the source root it derives by
joining the project directory with the fixed segments `src` and `kotlin`
and then the group with every '.' replaced by the path separator; for a
non-rooted replaced group the components are exactly that concatenation,
and for `group = "com.example"` they end with `com`/`example`. -/
theorem fyg_init_src_root_derivation (dir : FsPath) (t : FygToml) (fs : FS)
    (h : (Fyg.init dir t fs).2 = true) :
    Fyg.srcRootPath dir t.project.group ∈ (Fyg.init dir t fs).1.dirs ∧
    (strIsAbsolute (replaceDots t.project.group) = false →
      (Fyg.srcRootPath dir t.project.group).components =
        dir.components ++ ["src", "kotlin"] ++
          splitSegments (replaceDots t.project.group)) ∧
    (t.project.group = "com.example" →
      (Fyg.srcRootPath dir t.project.group).components =
        dir.components ++ ["src", "kotlin", "com", "example"] ∧
      ∃ pre, (Fyg.srcRootPath dir t.project.group).components =
        pre ++ ["com", "example"]) := by
  refine ⟨?_, ?_, ?_⟩
  · obtain ⟨hdf, hdd, heq⟩ := fyg_init_ok_decomp dir t fs h
    rw [heq]
    apply FS.createDirAll_mem
    exact (FS.createDirAll_ok_iff _ _).mpr (by
      rw [(FS.writeFile_state fs (dir.joinStr "fyg.toml") t.encode).2.1]
      exact hdd)
  · intro hg
    have hs1 : strIsAbsolute "src" = false := rfl
    have hs2 : strIsAbsolute "kotlin" = false := rfl
    have hp1 : splitSegments "src" = ["src"] := rfl
    have hp2 : splitSegments "kotlin" = ["kotlin"] := rfl
    simp [Fyg.srcRootPath, FsPath.joinStr, hs1, hs2, hp1, hp2, hg]
  · intro hg
    rw [hg]
    have hs1 : strIsAbsolute "src" = false := rfl
    have hs2 : strIsAbsolute "kotlin" = false := rfl
    have hp1 : splitSegments "src" = ["src"] := rfl
    have hp2 : splitSegments "kotlin" = ["kotlin"] := rfl
    have hg1 : strIsAbsolute (replaceDots "com.example") = false := rfl
    have hg2 : splitSegments (replaceDots "com.example") = ["com", "example"] := rfl
    constructor
    · simp [Fyg.srcRootPath, FsPath.joinStr, hs1, hs2, hp1, hp2, hg1, hg2]
    · refine ⟨dir.components ++ ["src", "kotlin"], ?_⟩
      simp [Fyg.srcRootPath, FsPath.joinStr, hs1, hs2, hp1, hp2, hg1, hg2]

/-- Witness for C6: a concrete successful `Fyg::init` run whose created
source root is the derived one. -/
theorem fyg_init_src_root_derivation_witness :
    (Fyg.init { absolute := false, components := ["p"] }
        (FygToml.new "x" "com.example")
        { files := [], dirs := [], deniedFiles := [], deniedDirs := [] }).2 = true ∧
    Fyg.srcRootPath { absolute := false, components := ["p"] } "com.example" ∈
      (Fyg.init { absolute := false, components := ["p"] }
        (FygToml.new "x" "com.example")
        { files := [], dirs := [], deniedFiles := [], deniedDirs := [] }).1.dirs :=
  ⟨rfl, (fyg_init_src_root_derivation { absolute := false, components := ["p"] }
    (FygToml.new "x" "com.example")
    { files := [], dirs := [], deniedFiles := [], deniedDirs := [] } rfl).1⟩

/-- C7: `Fyg::init` performs the manifest write before the
source-directory creation (src/lib.rs writes `fyg.toml` at line 33 and
creates the source root at line 39).  Concretely, when the source-root
creation is denied but the manifest write is permitted, the run fails
and yet the manifest file has been written into the project directory —
the opposite of the claimed ordering guarantee. -/
theorem fyg_init_manifest_left_on_mkdir_failure :
    (Fyg.init { absolute := false, components := ["proj"] }
        (FygToml.new "demo" "com.example")
        { files := [], dirs := [], deniedFiles := [],
          deniedDirs := [{ absolute := false, components := ["proj", "src", "kotlin", "com", "example"] }] }).2 = false ∧
    (Fyg.init { absolute := false, components := ["proj"] }
        (FygToml.new "demo" "com.example")
        { files := [], dirs := [], deniedFiles := [],
          deniedDirs := [{ absolute := false, components := ["proj", "src", "kotlin", "com", "example"] }] }).1.readFile
        { absolute := false, components := ["proj", "fyg.toml"] } =
      some (FygToml.new "demo" "com.example").encode :=
  ⟨rfl, rfl⟩

/-- A `Fyg::new` run on a state that denies none of its three touched
paths succeeds and leaves the serialized document at the manifest path. -/
theorem fyg_new_run (folder : FsPath) (t : FygToml) (g : FS)
    (hs1 : ¬ folder.joinStr t.project.name ∈ g.deniedDirs)
    (hs2 : ¬ (folder.joinStr t.project.name).joinStr "fyg.toml" ∈ g.deniedFiles)
    (hs3 : ¬ Fyg.srcRootPath (folder.joinStr t.project.name) t.project.group ∈ g.deniedDirs) :
    (Fyg.new folder t g).2 = true ∧
    (Fyg.new folder t g).1.readFile
        ((folder.joinStr t.project.name).joinStr "fyg.toml") = some t.encode := by
  have c1 : (g.createDirAll (folder.joinStr t.project.name)).2 = true :=
    (FS.createDirAll_ok_iff _ _).mpr hs1
  have c2 : ((g.createDirAll (folder.joinStr t.project.name)).1.writeFile
      ((folder.joinStr t.project.name).joinStr "fyg.toml") t.encode).2 = true :=
    (FS.writeFile_ok_iff _ _ _).mpr (by
      rw [(FS.createDirAll_state g _).1]; exact hs2)
  have c3 : (((g.createDirAll (folder.joinStr t.project.name)).1.writeFile
      ((folder.joinStr t.project.name).joinStr "fyg.toml") t.encode).1.createDirAll
      (Fyg.srcRootPath (folder.joinStr t.project.name) t.project.group)).2 = true :=
    (FS.createDirAll_ok_iff _ _).mpr (by
      rw [(FS.writeFile_state _ _ _).2.1, (FS.createDirAll_state g _).2.1]; exact hs3)
  constructor
  · simp only [Fyg.new, Fyg.init, c1, c2, if_true]
    exact c3
  · simp only [Fyg.new, Fyg.init, c1, c2, if_true]
    rw [FS.createDirAll_readFile]
    exact FS.writeFile_readFile _ _ _ (by
      rw [(FS.createDirAll_state g _).1]; exact hs2)

/-- C8: if `Fyg::new` succeeds on some state, running it again with the
same document and base directory on the resulting state succeeds as
well, and the manifest file's content is the serialized document after
both runs (in particular it is unchanged by the second run). -/
theorem fyg_new_idempotent (folder : FsPath) (t : FygToml) (fs : FS)
    (h : (Fyg.new folder t fs).2 = true) :
    (Fyg.new folder t (Fyg.new folder t fs).1).2 = true ∧
    (Fyg.new folder t (Fyg.new folder t fs).1).1.readFile
        ((folder.joinStr t.project.name).joinStr "fyg.toml") =
      (Fyg.new folder t fs).1.readFile
        ((folder.joinStr t.project.name).joinStr "fyg.toml") ∧
    (Fyg.new folder t fs).1.readFile
        ((folder.joinStr t.project.name).joinStr "fyg.toml") =
      some t.encode := by
  obtain ⟨hdd, hfs1, hinit⟩ := fyg_new_ok_decomp folder t fs h
  obtain ⟨hdf, hsd, hfs1i⟩ :=
    fyg_init_ok_decomp (folder.joinStr t.project.name) t
      (fs.createDirAll (folder.joinStr t.project.name)).1 hinit
  rw [(FS.createDirAll_state fs (folder.joinStr t.project.name)).1] at hdf
  rw [(FS.createDirAll_state fs (folder.joinStr t.project.name)).2.1] at hsd
  have hfinal : (Fyg.new folder t fs).1 =
      (((fs.createDirAll (folder.joinStr t.project.name)).1.writeFile
          ((folder.joinStr t.project.name).joinStr "fyg.toml") t.encode).1.createDirAll
        (Fyg.srcRootPath (folder.joinStr t.project.name) t.project.group)).1 := by
    rw [hfs1, hfs1i]
  have e1 : (Fyg.new folder t fs).1.deniedFiles = fs.deniedFiles := by
    rw [hfinal, (FS.createDirAll_state _ _).1, (FS.writeFile_state _ _ _).1,
      (FS.createDirAll_state fs _).1]
  have e2 : (Fyg.new folder t fs).1.deniedDirs = fs.deniedDirs := by
    rw [hfinal, (FS.createDirAll_state _ _).2.1, (FS.writeFile_state _ _ _).2.1,
      (FS.createDirAll_state fs _).2.1]
  have run1 := fyg_new_run folder t fs hdd hdf hsd
  have run2 := fyg_new_run folder t (Fyg.new folder t fs).1
    (by rw [e2]; exact hdd) (by rw [e1]; exact hdf) (by rw [e2]; exact hsd)
  exact ⟨run2.1, run2.2.trans run1.2.symm, run1.2⟩

/-- Witness for C8: a concrete first run succeeds, and the theorem gives
success of the second run over its result. -/
theorem fyg_new_idempotent_witness :
    (Fyg.new { absolute := false, components := ["base"] }
        (FygToml.new "app" "com.example")
        { files := [], dirs := [], deniedFiles := [], deniedDirs := [] }).2 = true ∧
    (Fyg.new { absolute := false, components := ["base"] }
        (FygToml.new "app" "com.example")
        (Fyg.new { absolute := false, components := ["base"] }
          (FygToml.new "app" "com.example")
          { files := [], dirs := [], deniedFiles := [], deniedDirs := [] }).1).2 = true :=
  ⟨rfl, (fyg_new_idempotent { absolute := false, components := ["base"] }
    (FygToml.new "app" "com.example")
    { files := [], dirs := [], deniedFiles := [], deniedDirs := [] } rfl).1⟩

/-- C10: `Fyg::new` joins the base folder with the raw project name (no
validation that the name is a single path component): a successful run
leaves exactly `folder.join(name)` as the created project directory; a
name "a/b" contributes the two components `a` and `b`, and an absolute
name replaces the base folder entirely (Rust `Path::join` semantics), so
the scaffold lands outside it. -/
theorem fyg_new_project_dir_unvalidated (folder : FsPath) (t : FygToml) (fs : FS)
    (h : (Fyg.new folder t fs).2 = true) :
    folder.joinStr t.project.name ∈ (Fyg.new folder t fs).1.dirs ∧
    (t.project.name = "a/b" →
      (folder.joinStr t.project.name).components = folder.components ++ ["a", "b"] ∧
      (folder.joinStr t.project.name).absolute = folder.absolute) ∧
    (t.project.name = "/outside" →
      folder.joinStr t.project.name =
        { absolute := true, components := ["outside"] }) := by
  refine ⟨?_, ?_, ?_⟩
  · obtain ⟨hdd, hfs1, hinit⟩ := fyg_new_ok_decomp folder t fs h
    obtain ⟨hdf, hsd, hfs1i⟩ :=
      fyg_init_ok_decomp (folder.joinStr t.project.name) t
        (fs.createDirAll (folder.joinStr t.project.name)).1 hinit
    rw [hfs1, hfs1i]
    apply FS.createDirAll_dirs_mono
    rw [(FS.writeFile_state _ _ _).2.2]
    apply FS.createDirAll_mem
    exact (FS.createDirAll_ok_iff _ _).mpr hdd
  · intro hn
    rw [hn]
    have ha : strIsAbsolute "a/b" = false := rfl
    have hp : splitSegments "a/b" = ["a", "b"] := rfl
    simp [FsPath.joinStr, ha, hp]
  · intro hn
    rw [hn]
    have ha : strIsAbsolute "/outside" = true := rfl
    have hp : splitSegments "/outside" = ["outside"] := rfl
    simp [FsPath.joinStr, ha, hp]

/-- Witness for C10: scaffolding a document named "a/b" under `base`
succeeds and the created project directory is `base/a/b` (two extra
components). -/
theorem fyg_new_project_dir_unvalidated_witness :
    (Fyg.new { absolute := false, components := ["base"] }
        (FygToml.new "a/b" "com.example")
        { files := [], dirs := [], deniedFiles := [], deniedDirs := [] }).2 = true ∧
    ({ absolute := false, components := ["base"] } : FsPath).joinStr "a/b" ∈
      (Fyg.new { absolute := false, components := ["base"] }
        (FygToml.new "a/b" "com.example")
        { files := [], dirs := [], deniedFiles := [], deniedDirs := [] }).1.dirs :=
  ⟨rfl, (fyg_new_project_dir_unvalidated { absolute := false, components := ["base"] }
    (FygToml.new "a/b" "com.example")
    { files := [], dirs := [], deniedFiles := [], deniedDirs := [] } rfl).1⟩

/-- Witness for C9: the only string decoding to `SharedLib` is its
external name "sharedLib". -/
theorem fygBinaryType_name_mapping_witness :
    "sharedLib" = FygBinaryType.SharedLib.externalName :=
  fygBinaryType_name_mapping.2.2.2.2.2.2.2.1 [] .SharedLib "sharedLib" rfl
